import Mathlib

/-!
Verification of the batch-size auto-selection subsystem of `tools/train.py`
(`determine_max_batch_size` and the shard-length clamp in `main`).

The probe body (building synthetic inputs and running one forward+backward
step at candidate batch size `bs`) is an external effect; we embed it as an
oracle `trial : Nat → TrialOutcome` classifying what the Python `try` body
does at each candidate size, matching the `except` structure of the code:

* `success`      — the try body completes, so `batch_size = bs` executes;
* `cudaOOM`      — a `RuntimeError` whose message starts with
                   `CUDA out of memory` is raised (the code breaks);
* `otherRuntime` — a `RuntimeError` with any other message is raised
                   (the code catches it, does not break, and the `for`
                   loop continues with the next candidate);
* `fatal`        — an exception that is not a `RuntimeError` is raised
                   (not caught: it propagates out of the function).

Python float arithmetic in the source is embedded by exact natural-number
formulas:

* `int(dataset_len_per_gpu / 0.9) + 1` equals `10 * L / 9 + 1` (Nat
  floor division) after taking `min` with 512, for every `L`.  The IEEE
  double `0.9` exceeds the rational 9/10 by about 2.2e-17, so the quotient
  `L / 0.9` computed in doubles has relative error about 2.5e-17 below the
  exact value `10L/9`; rounding to nearest therefore returns exactly
  `10L/9` whenever `9 ∣ L` (note `int(9/0.9) == 10` in Python) and a value
  whose floor is `⌊10L/9⌋` otherwise, for every `L` small enough to matter
  under the `min(512, ·)` cap (checked exhaustively for `L < 20000`;
  beyond that both sides are 512).
* `int(batch_size * 0.9)` equals `9 * b / 10` (Nat floor division) for
  every relevant `b` (`b ≤ 511`; checked exhaustively for `b < 20000`).
-/

namespace TrainPy

/-- Outcome of one probe iteration's `try` body at a given candidate size. -/
inductive TrialOutcome where
  | success
  | cudaOOM
  | otherRuntime
  | fatal
deriving DecidableEq

/-- The constant `min_bs = 2` in `determine_max_batch_size`. -/
def min_bs : Nat := 2

/-- The bound `max_bs = min(512, int(dataset_len_per_gpu / percentage) + 1)`
with
`percentage = 0.9`; the float expression equals `10 * L / 9 + 1` under the
`min` cap (see the header comment). -/
def max_bs (dataset_len_per_gpu : Nat) : Nat :=
  min 512 (10 * dataset_len_per_gpu / 9 + 1)

/-- The `for bs in range(min_bs, max_bs, step)` loop with `step = 1`:
`bs` is the current candidate, `n` the number of candidates left in the
range, `best` the current value of the `batch_size` variable.  `success`
runs `batch_size = bs` and continues; `cudaOOM` breaks out of the loop;
`otherRuntime` is caught without breaking, so the loop continues with the
old `batch_size`; `fatal` aborts the whole function. -/
def probeFrom (trial : Nat → TrialOutcome) : Nat → Nat → Nat → Except Unit Nat
  | _, 0, best => Except.ok best
  | bs, n + 1, best =>
    match trial bs with
    | TrialOutcome.success => probeFrom trial (bs + 1) n bs
    | TrialOutcome.cudaOOM => Except.ok best
    | TrialOutcome.otherRuntime => probeFrom trial (bs + 1) n best
    | TrialOutcome.fatal => Except.error ()

/-- The value of the `batch_size` variable when the probe loop of
`determine_max_batch_size` finishes (`batch_size` is initialized to
`min_bs` before the loop). -/
def rawCapacity (trial : Nat → TrialOutcome) (dataset_len_per_gpu : Nat) :
    Except Unit Nat :=
  probeFrom trial min_bs (max_bs dataset_len_per_gpu - min_bs) min_bs

/-- The margin `resulting_batch_size = int(batch_size * percentage)` with
`percentage = 0.9`; the float expression equals `9 * b / 10` for every
relevant `b` (see the header comment). -/
def applyMargin (batch_size : Nat) : Nat := 9 * batch_size / 10

/-- The reduction `dist.all_reduce(resulting_batch_size, ReduceOp.MIN)` as
seen by one
worker holding local value `x`, with the other workers holding `others`. -/
def allReduceMin (x : Nat) (others : List Nat) : Nat := others.foldl min x

/-- The function `determine_max_batch_size`: probe, apply the 0.9 margin,
and in a
distributed run take the minimum over all workers' local values. -/
def determine_max_batch_size (trial : Nat → TrialOutcome)
    (distributed : Bool) (dataset_len_per_gpu : Nat) (others : List Nat) :
    Except Unit Nat :=
  (rawCapacity trial dataset_len_per_gpu).map fun batch_size =>
    let r := applyMargin batch_size
    if distributed then allReduceMin r others else r

/-- The clamp in `main`: `if dataset_len_per_gpu < cfg.data.samples_per_gpu`
then `samples_per_gpu` is reduced to `dataset_len_per_gpu` and
`logger.warning` fires (second component `true`); otherwise the value is
kept and no warning is emitted.  No exception is raised on either branch. -/
def clampToShard (dataset_len_per_gpu samples_per_gpu : Nat) : Nat × Bool :=
  if dataset_len_per_gpu < samples_per_gpu then (dataset_len_per_gpu, true)
  else (samples_per_gpu, false)

/-- The auto-selection path of `main`: `cfg.data.samples_per_gpu` is set by
`determine_max_batch_size` and then clamped against the shard length. -/
def mainSamplesPerGpu (trial : Nat → TrialOutcome) (distributed : Bool)
    (dataset_len_per_gpu : Nat) (others : List Nat) :
    Except Unit (Nat × Bool) :=
  (determine_max_batch_size trial distributed dataset_len_per_gpu others).map
    fun s => clampToShard dataset_len_per_gpu s

/-- The value of the `batch_size` variable once the loop has scanned the
candidates in `[bs, k)` without breaking, starting from `best`: the last
candidate in that interval whose trial succeeded, or `best` if none did. -/
def bestRecorded (trial : Nat → TrialOutcome) (bs k best : Nat) : Nat :=
  (List.range' bs (k - bs)).foldl
    (fun b j => if trial j = TrialOutcome.success then j else b) best

/-- Oracle where every candidate size succeeds. -/
def trialAllSuccess : Nat → TrialOutcome := fun _ => TrialOutcome.success

/-- Oracle where every candidate size exhausts memory. -/
def trialAllOOM : Nat → TrialOutcome := fun _ => TrialOutcome.cudaOOM

/-- Oracle raising a non-OOM `RuntimeError` at candidate 2 and succeeding
at every other size. -/
def trialRTThenSuccess : Nat → TrialOutcome := fun bs =>
  if bs = 2 then TrialOutcome.otherRuntime else TrialOutcome.success

/-- Oracle raising a non-`RuntimeError` exception at candidate 2. -/
def trialFatalAt2 : Nat → TrialOutcome := fun bs =>
  if bs = 2 then TrialOutcome.fatal else TrialOutcome.success

/-- Oracle: candidate 3 raises a non-OOM `RuntimeError`, candidates 2 and 4
succeed, everything from 5 on exhausts memory. -/
def trialSkipThenOOM : Nat → TrialOutcome := fun bs =>
  if bs = 3 then TrialOutcome.otherRuntime
  else if bs ≤ 4 then TrialOutcome.success
  else TrialOutcome.cudaOOM

/-- Oracle: candidate 2 raises a non-OOM `RuntimeError`, candidate 3
succeeds, everything from 4 on exhausts memory. -/
def trialFailThenSuccess : Nat → TrialOutcome := fun bs =>
  if bs = 2 then TrialOutcome.otherRuntime
  else if bs = 3 then TrialOutcome.success
  else TrialOutcome.cudaOOM

/-- Oracle succeeding strictly below 4 and exhausting memory from 4 on. -/
def trialSuccessBelow4 : Nat → TrialOutcome := fun bs =>
  if bs < 4 then TrialOutcome.success else TrialOutcome.cudaOOM

/-- The exact upper bound named by the specification,
`ceil(dataset_len_per_gpu / 0.9)` computed over the rationals:
`⌈10 * L / 9⌉ = (10 * L + 8) / 9` in natural-number arithmetic. -/
def specCeilBound (dataset_len_per_gpu : Nat) : Nat :=
  min 512 ((10 * dataset_len_per_gpu + 8) / 9)

section Lemmas

/-- Any value the probe loop returns is either the incoming `best` or one of
the candidates in the scanned range. -/
lemma probeFrom_ok_cases (trial : Nat → TrialOutcome) :
    ∀ (n bs best m : Nat), probeFrom trial bs n best = Except.ok m →
      m = best ∨ (bs ≤ m ∧ m < bs + n) := by
  intro n
  induction n with
  | zero =>
    intro bs best m h
    simp only [probeFrom] at h
    exact Or.inl (Except.ok.inj h).symm
  | succ n ih =>
    intro bs best m h
    rw [probeFrom] at h
    cases htr : trial bs with
    | success =>
      rw [htr] at h
      rcases ih (bs + 1) bs m h with h1 | h2
      · exact Or.inr ⟨Nat.le_of_eq h1.symm, by omega⟩
      · exact Or.inr ⟨by omega, by omega⟩
    | cudaOOM =>
      rw [htr] at h
      exact Or.inl (Except.ok.inj h).symm
    | otherRuntime =>
      rw [htr] at h
      rcases ih (bs + 1) best m h with h1 | h2
      · exact Or.inl h1
      · exact Or.inr ⟨by omega, by omega⟩
    | fatal =>
      rw [htr] at h
      exact absurd h (by simp)

/-- The probe loop never errors out when the oracle never signals a fatal
(non-`RuntimeError`) failure. -/
lemma probeFrom_no_fatal (trial : Nat → TrialOutcome)
    (hf : ∀ j, trial j ≠ TrialOutcome.fatal) :
    ∀ (n bs best : Nat), ∃ m, probeFrom trial bs n best = Except.ok m := by
  intro n
  induction n with
  | zero => intro bs best; exact ⟨best, rfl⟩
  | succ n ih =>
    intro bs best
    rw [probeFrom]
    cases htr : trial bs with
    | success => exact ih (bs + 1) bs
    | cudaOOM => exact ⟨best, rfl⟩
    | otherRuntime => exact ih (bs + 1) best
    | fatal => exact absurd htr (hf bs)

/-- If some size `j ≥ best` exhausts memory, the probe loop cannot return a
value above `j`: the scan breaks at the first OOM it meets, which is ≤ `j`. -/
lemma probeFrom_oom_bound (trial : Nat → TrialOutcome) (j : Nat)
    (hoom : trial j = TrialOutcome.cudaOOM) :
    ∀ (n bs best m : Nat), bs ≤ j → best ≤ j →
      probeFrom trial bs n best = Except.ok m → m ≤ j := by
  intro n
  induction n with
  | zero =>
    intro bs best m _ hbest h
    simp only [probeFrom] at h
    have := Except.ok.inj h
    omega
  | succ n ih =>
    intro bs best m hbs hbest h
    rw [probeFrom] at h
    cases htr : trial bs with
    | success =>
      rw [htr] at h
      have hne : bs ≠ j := fun he => by rw [he, hoom] at htr; cases htr
      exact ih (bs + 1) bs m (by omega) (by omega) h
    | cudaOOM =>
      rw [htr] at h
      have := (Except.ok.inj h).symm
      omega
    | otherRuntime =>
      rw [htr] at h
      have hne : bs ≠ j := fun he => by rw [he, hoom] at htr; cases htr
      exact ih (bs + 1) best m (by omega) hbest h
    | fatal =>
      rw [htr] at h
      exact absurd h (by simp)

/-- For a shard of length at least 2 the candidate range is nonempty. -/
lemma max_bs_ge_three (L : Nat) (hL : 2 ≤ L) : 3 ≤ max_bs L := by
  unfold max_bs
  omega

/-- The probe never returns below the initial minimum 2. -/
lemma rawCapacity_ge_two (trial : Nat → TrialOutcome) (L m : Nat)
    (h : rawCapacity trial L = Except.ok m) : min_bs ≤ m := by
  unfold rawCapacity at h
  rcases probeFrom_ok_cases trial _ _ _ _ h with h1 | h2
  · exact Nat.le_of_eq h1.symm
  · exact h2.1

/-- With a nonempty candidate range the probe stays strictly below
`max_bs`. -/
lemma rawCapacity_lt_max_bs (trial : Nat → TrialOutcome) (L m : Nat)
    (hL : 2 ≤ L) (h : rawCapacity trial L = Except.ok m) : m < max_bs L := by
  have h3 := max_bs_ge_three L hL
  unfold rawCapacity at h
  rcases probeFrom_ok_cases trial _ _ _ _ h with h1 | h2
  · unfold min_bs at h1; omega
  · unfold min_bs at h2; omega

/-- The 10% margin keeps any raw capacity ≥ 2 at a value ≥ 1. -/
lemma applyMargin_pos (b : Nat) (hb : 2 ≤ b) : 1 ≤ applyMargin b := by
  unfold applyMargin; omega

/-- The margin `int(b * 0.9)` is the rational floor of `b * 9/10`. -/
lemma applyMargin_eq_floor (b : Nat) :
    applyMargin b = Nat.floor ((b : ℚ) * (9 / 10)) := by
  have h : (b : ℚ) * (9 / 10) = ((9 * b : ℕ) : ℚ) / ((10 : ℕ) : ℚ) := by
    push_cast; ring
  rw [applyMargin, h, Nat.floor_div_nat, Nat.floor_natCast]

/-- Scanning an empty interval records nothing. -/
lemma bestRecorded_self (trial : Nat → TrialOutcome) (k best : Nat) :
    bestRecorded trial k k best = best := by
  unfold bestRecorded
  simp

/-- Unfolding one step of the recorded-best scan. -/
lemma bestRecorded_step (trial : Nat → TrialOutcome) (bs k best : Nat)
    (h : bs < k) :
    bestRecorded trial bs k best =
      bestRecorded trial (bs + 1) k
        (if trial bs = TrialOutcome.success then bs else best) := by
  unfold bestRecorded
  have h1 : k - bs = (k - (bs + 1)) + 1 := by omega
  rw [h1, List.range'_succ, List.foldl_cons]

/-- If the oracle only succeeds or raises suppressed `RuntimeError`s below
`k` and exhausts memory at `k`, the loop runs through `[bs, k)`, breaks at
`k`, and returns exactly the recorded best. -/
lemma probeFrom_first_oom (trial : Nat → TrialOutcome) (k : Nat)
    (hoom : trial k = TrialOutcome.cudaOOM) :
    ∀ (n bs best : Nat), bs ≤ k → k < bs + n →
      (∀ j, bs ≤ j → j < k → trial j = TrialOutcome.success ∨
        trial j = TrialOutcome.otherRuntime) →
      probeFrom trial bs n best =
        Except.ok (bestRecorded trial bs k best) := by
  intro n
  induction n with
  | zero => intro bs best h1 h2 _; omega
  | succ n ih =>
    intro bs best hbsk hlt hreach
    by_cases hbk : bs = k
    · subst hbk
      rw [probeFrom, hoom, bestRecorded_self]
    · have hbs : bs < k := by omega
      rcases hreach bs le_rfl hbs with hs | ho
      · calc probeFrom trial bs (n + 1) best
            = probeFrom trial (bs + 1) n bs := by rw [probeFrom, hs]
          _ = Except.ok (bestRecorded trial (bs + 1) k bs) :=
              ih (bs + 1) bs (by omega) (by omega)
                (fun j h1 h2 => hreach j (by omega) h2)
          _ = Except.ok (bestRecorded trial bs k best) := by
              rw [bestRecorded_step trial bs k best hbs, hs]
              simp
      · calc probeFrom trial bs (n + 1) best
            = probeFrom trial (bs + 1) n best := by rw [probeFrom, ho]
          _ = Except.ok (bestRecorded trial (bs + 1) k best) :=
              ih (bs + 1) best (by omega) (by omega)
                (fun j h1 h2 => hreach j (by omega) h2)
          _ = Except.ok (bestRecorded trial bs k best) := by
              rw [bestRecorded_step trial bs k best hbs, ho]
              simp

/-- The recorded best only depends on the oracle inside the scanned
interval. -/
lemma bestRecorded_congr (trial trial2 : Nat → TrialOutcome)
    (bs k best : Nat) (hag : ∀ j, bs ≤ j → j < k → trial2 j = trial j) :
    bestRecorded trial2 bs k best = bestRecorded trial bs k best := by
  unfold bestRecorded
  have key : ∀ (l : List Nat) (b : Nat), (∀ j ∈ l, trial2 j = trial j) →
      l.foldl (fun b j => if trial2 j = TrialOutcome.success then j else b) b
        = l.foldl
            (fun b j => if trial j = TrialOutcome.success then j else b) b := by
    intro l
    induction l with
    | nil => intro b _; rfl
    | cons y ys ih =>
      intro b hl
      simp only [List.foldl_cons]
      rw [hl y (List.mem_cons_self y ys)]
      exact ih _ (fun j hj => hl j (List.mem_cons.mpr (Or.inr hj)))
  refine key _ best ?_
  intro j hj
  rw [List.mem_range'_1] at hj
  exact hag j hj.1 (by omega)

/-- A left min-fold is bounded by its initial value. -/
lemma foldl_min_le_init (xs : List Nat) : ∀ x, xs.foldl min x ≤ x := by
  induction xs with
  | nil => intro x; exact le_rfl
  | cons y ys ih =>
    intro x
    calc List.foldl min (min x y) ys ≤ min x y := ih (min x y)
      _ ≤ x := min_le_left x y

/-- A left min-fold is bounded by every list element. -/
lemma foldl_min_le_mem (xs : List Nat) :
    ∀ x v, v ∈ xs → xs.foldl min x ≤ v := by
  induction xs with
  | nil => intro x v hv; cases hv
  | cons y ys ih =>
    intro x v hv
    rcases List.mem_cons.mp hv with h | h
    · subst h
      calc List.foldl min (min x v) ys ≤ min x v := foldl_min_le_init ys _
        _ ≤ v := min_le_right x v
    · exact ih (min x y) v h

/-- A left min-fold returns its initial value or a list element. -/
lemma foldl_min_mem (xs : List Nat) :
    ∀ x, xs.foldl min x = x ∨ xs.foldl min x ∈ xs := by
  induction xs with
  | nil => intro x; exact Or.inl rfl
  | cons y ys ih =>
    intro x
    rcases ih (min x y) with h | h
    · rcases min_choice x y with h2 | h2
      · exact Or.inl (h.trans h2)
      · exact Or.inr (List.mem_cons.mpr (Or.inl (h.trans h2)))
    · exact Or.inr (List.mem_cons.mpr (Or.inr h))

/-- A lower bound on the initial value and all elements bounds the fold. -/
lemma foldl_min_ge (xs : List Nat) :
    ∀ x c, c ≤ x → (∀ v ∈ xs, c ≤ v) → c ≤ xs.foldl min x := by
  induction xs with
  | nil => intro x c hc _; exact hc
  | cons y ys ih =>
    intro x c hc hv
    exact ih (min x y) c (le_min hc (hv y (List.mem_cons_self y ys)))
      (fun v h => hv v (List.mem_cons.mpr (Or.inr h)))

end Lemmas

section Claims

/-- C3: for every raw capacity `r` found by the probe, the local safe value
reported by the worker is `int(r * 0.9)`, which equals `floor(r * 0.9)`
computed over the rationals. -/
theorem c3_local_safe_value_is_floor_margin (trial : Nat → TrialOutcome)
    (L r : Nat) (h : rawCapacity trial L = Except.ok r) :
    determine_max_batch_size trial false L [] = Except.ok (applyMargin r) ∧
      applyMargin r = Nat.floor ((r : ℚ) * (9 / 10)) := by
  constructor
  · unfold determine_max_batch_size
    rw [h]
    rfl
  · exact applyMargin_eq_floor r

/-- Witness for C3: a five-element shard probes candidates 2..5; with every
trial succeeding the raw capacity is 5 and the local safe value is
`floor(4.5) = 4`. -/
theorem c3_local_safe_value_is_floor_margin_witness :
    determine_max_batch_size trialAllSuccess false 5 [] =
        Except.ok (applyMargin 5) ∧
      applyMargin 5 = Nat.floor ((5 : ℚ) * (9 / 10)) :=
  c3_local_safe_value_is_floor_margin trialAllSuccess 5 5 rfl

/-- C4: the all-reduce consensus value is the minimum of all workers'
locally-computed safe values — it belongs to the list of values and is ≤
every one of them — and workers reporting `[7, 9, 5]` yield 5. -/
theorem c4_consensus_is_minimum (x : Nat) (xs : List Nat) :
    allReduceMin x xs ∈ x :: xs ∧
      (∀ v ∈ x :: xs, allReduceMin x xs ≤ v) ∧
      allReduceMin 7 [9, 5] = 5 := by
  unfold allReduceMin
  refine ⟨?_, ?_, by decide⟩
  · rcases foldl_min_mem xs x with h | h
    · exact List.mem_cons.mpr (Or.inl h)
    · exact List.mem_cons.mpr (Or.inr h)
  · intro v hv
    rcases List.mem_cons.mp hv with h | h
    · subst h
      exact foldl_min_le_init xs v
    · exact foldl_min_le_mem xs x v h

/-- Witness for C4 at the concrete report `[7, 9, 5]`: the consensus is 5
and is ≤ the worker value 9. -/
theorem c4_consensus_is_minimum_witness :
    allReduceMin 7 [9, 5] ≤ 9 ∧ allReduceMin 7 [9, 5] = 5 :=
  ⟨(c4_consensus_is_minimum 7 [9, 5]).2.1 9 (by simp),
    (c4_consensus_is_minimum 7 [9, 5]).2.2⟩

/-- C5: whenever the computed batch size exceeds the invoking worker's
shard length, `main` reduces it to the shard length and emits a
warning-level event (second component `true`); the clamp is a total
function — no exception is raised and processing continues — and shard
length 4 with computed value 10 yields 4. -/
theorem c5_clamp_to_shard_length (L s : Nat) (h : L < s) :
    clampToShard L s = (L, true) ∧ clampToShard 4 10 = (4, true) := by
  constructor
  · unfold clampToShard
    rw [if_pos h]
  · rfl

/-- Witness for C5 at shard length 4 and computed value 10. -/
theorem c5_clamp_to_shard_length_witness :
    clampToShard 4 10 = (4, true) ∧ clampToShard 4 10 = (4, true) :=
  c5_clamp_to_shard_length 4 10 (by decide)

/-- C7: if the very first candidate (the minimum, 2) fails with memory
exhaustion, the best-so-far value is still the initialized minimum 2,
which the probe returns as if it had succeeded, so the local safe value
becomes `int(2 * 0.9) = 1`. -/
theorem c7_first_candidate_oom_returns_minimum (trial : Nat → TrialOutcome)
    (L : Nat) (hL : 2 ≤ L) (h2 : trial 2 = TrialOutcome.cudaOOM) :
    rawCapacity trial L = Except.ok min_bs ∧
      determine_max_batch_size trial false L [] = Except.ok 1 := by
  have h3 := max_bs_ge_three L hL
  have hraw : rawCapacity trial L = Except.ok min_bs := by
    unfold rawCapacity min_bs
    obtain ⟨n, hn⟩ : ∃ n, max_bs L - 2 = n + 1 :=
      ⟨max_bs L - 2 - 1, by omega⟩
    rw [hn, probeFrom, h2]
  refine ⟨hraw, ?_⟩
  unfold determine_max_batch_size
  rw [hraw]
  rfl

/-- Witness for C7: a two-element shard whose oracle always exhausts
memory still reports raw capacity 2 and local safe value 1. -/
theorem c7_first_candidate_oom_returns_minimum_witness :
    rawCapacity trialAllOOM 2 = Except.ok min_bs ∧
      determine_max_batch_size trialAllOOM false 2 [] = Except.ok 1 :=
  c7_first_candidate_oom_returns_minimum trialAllOOM 2 (by decide) rfl

/-- C10: with a one-element shard the candidate range
`[2, min(512, int(1/0.9)+1)) = [2, 2)` is empty, so for every oracle —
even one that would fail fatally at every size — the probe performs zero
trial iterations, the raw capacity is the untouched initial value 2, and
the reported value is `int(2 * 0.9) = 1`. -/
theorem c10_shard_length_one_skips_probe (trial : Nat → TrialOutcome) :
    max_bs 1 = min_bs ∧ rawCapacity trial 1 = Except.ok min_bs ∧
      determine_max_batch_size trial false 1 [] = Except.ok 1 :=
  ⟨rfl, rfl, rfl⟩

/-- Counterexample to C1 as stated: for shard length 9 the spec's bound is
`min(512, ceil(9/0.9)) = 10`, yet with every trial succeeding the probe
returns raw capacity 10, which is not `< 10`.  The code's own bound is
`min(512, int(9/0.9)+1) = 11`, one above the spec's, because `9/0.9`
evaluates to exactly `10.0` in IEEE doubles. -/
theorem c1_upper_bound_counterexample :
    rawCapacity trialAllSuccess 9 = Except.ok 10 ∧ specCeilBound 9 = 10 :=
  ⟨rfl, rfl⟩

/-- C1 amended: the probe starts the candidate at the fixed minimum 2 and
steps by 1; its upper bound as coded is `min(512, int(L/0.9)+1)`, i.e.
`min(512, ⌊10L/9⌋ + 1)`, and for every shard length L ≥ 2 the raw capacity
is strictly below that bound.  The coded bound agrees with the spec's
`min(512, ceil(L/0.9))` except when 9 divides L (with `⌊10L/9⌋ + 1 < 512`),
where it is larger by exactly one. -/
theorem c1_amended_raw_below_coded_bound (trial : Nat → TrialOutcome)
    (L m : Nat) (hL : 2 ≤ L) (h : rawCapacity trial L = Except.ok m) :
    m < max_bs L ∧ specCeilBound L ≤ max_bs L ∧
      max_bs L ≤ specCeilBound L + 1 := by
  refine ⟨rawCapacity_lt_max_bs trial L m hL h, ?_, ?_⟩
  · unfold max_bs specCeilBound
    omega
  · unfold max_bs specCeilBound
    omega

/-- Witness for amended C1: a two-element shard with an all-success oracle
has raw capacity 2, strictly below the coded bound `min(512, 3) = 3`. -/
theorem c1_amended_raw_below_coded_bound_witness :
    rawCapacity trialAllSuccess 2 = Except.ok 2 ∧
      2 < max_bs 2 ∧ specCeilBound 2 ≤ max_bs 2 ∧
      max_bs 2 ≤ specCeilBound 2 + 1 :=
  ⟨rfl, c1_amended_raw_below_coded_bound trialAllSuccess 2 2 (by decide) rfl⟩

/-- Counterexample to C2 as stated: the oracle raises a non-OOM
`RuntimeError` at candidate 2, yet nothing propagates to the caller — the
`except RuntimeError` clause catches it, does not re-raise, the loop
continues through candidates 3..5, and the function returns normally with
local safe value `int(5 * 0.9) = 4`. -/
theorem c2_nonfatal_runtime_error_counterexample :
    trialRTThenSuccess 2 = TrialOutcome.otherRuntime ∧
      determine_max_batch_size trialRTThenSuccess false 5 [] =
        Except.ok 4 :=
  ⟨rfl, rfl⟩

/-- C2 amended: only exceptions outside the `RuntimeError` class propagate
to the caller as fatal; `RuntimeError`s are caught inside the probe loop —
OOM messages break it, any other `RuntimeError` is silently suppressed and
the scan continues.  Formally: an oracle that never signals a fatal
(non-`RuntimeError`) failure always yields a normal result, and a fatal
failure at the first probed candidate aborts the whole function. -/
theorem c2_amended_only_nonruntime_fatal (trial : Nat → TrialOutcome)
    (L : Nat) :
    ((∀ j, trial j ≠ TrialOutcome.fatal) →
      ∃ m, determine_max_batch_size trial false L [] = Except.ok m) ∧
    (2 ≤ L → trial 2 = TrialOutcome.fatal →
      determine_max_batch_size trial false L [] = Except.error ()) := by
  constructor
  · intro hf
    obtain ⟨m, hm⟩ :=
      probeFrom_no_fatal trial hf (max_bs L - min_bs) min_bs min_bs
    refine ⟨applyMargin m, ?_⟩
    unfold determine_max_batch_size rawCapacity
    rw [hm]
    rfl
  · intro hL h2
    have h3 := max_bs_ge_three L hL
    unfold determine_max_batch_size rawCapacity min_bs
    obtain ⟨n, hn⟩ : ∃ n, max_bs L - 2 = n + 1 :=
      ⟨max_bs L - 2 - 1, by omega⟩
    rw [hn, probeFrom, h2]
    rfl

/-- Witness for amended C2: an all-success oracle returns normally, while
an oracle whose candidate 2 fails with a non-`RuntimeError` exception makes
the whole call abort. -/
theorem c2_amended_only_nonruntime_fatal_witness :
    (∃ m, determine_max_batch_size trialAllSuccess false 5 [] =
      Except.ok m) ∧
    determine_max_batch_size trialFatalAt2 false 5 [] = Except.error () :=
  ⟨(c2_amended_only_nonruntime_fatal trialAllSuccess 5).1
      (fun _ h => TrialOutcome.noConfusion h),
    (c2_amended_only_nonruntime_fatal trialFatalAt2 5).2 (by decide) rfl⟩

/-- C6: on a memory-exhaustion failure at any candidate `k` the probe stops
the loop immediately and returns the best candidate recorded so far over
`[2, k)` — with no retry, no step-size backoff and no re-probing at an
intermediate size: the result is unchanged under arbitrary modification of
the oracle at sizes above `k`. -/
theorem c6_oom_stops_loop_immediately (trial : Nat → TrialOutcome)
    (L k : Nat) (hk2 : min_bs ≤ k) (hkmax : k < max_bs L)
    (hreach : ∀ j < k, min_bs ≤ j → trial j = TrialOutcome.success ∨
      trial j = TrialOutcome.otherRuntime)
    (hoom : trial k = TrialOutcome.cudaOOM) :
    rawCapacity trial L = Except.ok (bestRecorded trial min_bs k min_bs) ∧
      ∀ trial2, (∀ j, j ≤ k → trial2 j = trial j) →
        rawCapacity trial2 L =
          Except.ok (bestRecorded trial min_bs k min_bs) := by
  have hmain : ∀ t : Nat → TrialOutcome, t k = TrialOutcome.cudaOOM →
      (∀ j < k, min_bs ≤ j → t j = TrialOutcome.success ∨
        t j = TrialOutcome.otherRuntime) →
      rawCapacity t L = Except.ok (bestRecorded t min_bs k min_bs) := by
    intro t hO hR
    unfold rawCapacity
    refine probeFrom_first_oom t k hO (max_bs L - min_bs) min_bs min_bs
      hk2 ?_ (fun j h1 h2 => hR j h2 h1)
    unfold min_bs
    unfold min_bs at hk2
    omega
  refine ⟨hmain trial hoom hreach, ?_⟩
  intro trial2 hag
  rw [hmain trial2 (by rw [hag k le_rfl]; exact hoom)
    (fun j h1 h2 => by rw [hag j (le_of_lt h1)]; exact hreach j h1 h2)]
  rw [bestRecorded_congr trial trial2 min_bs k min_bs
    (fun j _ hj2 => hag j (le_of_lt hj2))]

/-- Witness for C6: candidates 2 and 4 succeed, 3 raises a suppressed
`RuntimeError`, 5 exhausts memory on a nine-element shard; the probe stops
at 5 and returns the recorded best. -/
theorem c6_oom_stops_loop_immediately_witness :
    rawCapacity trialSkipThenOOM 9 =
      Except.ok (bestRecorded trialSkipThenOOM min_bs 5 min_bs) :=
  (c6_oom_stops_loop_immediately trialSkipThenOOM 9 5 (by decide)
    (by decide) (by decide) rfl).1

/-- Counterexample to C8 as stated: candidate 2 fails with a non-OOM
`RuntimeError`, candidate 3 succeeds, candidate 4 exhausts memory; the
probe returns raw capacity 3, which it can only have recorded as a success
in the iteration after the failure at the smaller size 2. -/
theorem c8_success_after_failure_counterexample :
    trialFailThenSuccess 2 = TrialOutcome.otherRuntime ∧
      trialFailThenSuccess 3 = TrialOutcome.success ∧
      rawCapacity trialFailThenSuccess 4 = Except.ok 3 :=
  ⟨rfl, rfl, rfl⟩

/-- C8 amended: the probe never records a success at a size above a
memory-exhaustion failure — if any size `j ≥ 2` exhausts memory, the raw
capacity never exceeds `j` — but a non-OOM `RuntimeError` at a smaller size
does not prevent later successes from being recorded, because it is
suppressed and the scan continues. -/
theorem c8_amended_no_success_above_oom (trial : Nat → TrialOutcome)
    (L j m : Nat) (hj : min_bs ≤ j)
    (hoom : trial j = TrialOutcome.cudaOOM)
    (h : rawCapacity trial L = Except.ok m) : m ≤ j := by
  unfold rawCapacity at h
  exact probeFrom_oom_bound trial j hoom _ min_bs min_bs m hj hj h

/-- Witness for amended C8: with successes below 4 and OOM from 4 on, a
nine-element shard yields raw capacity 3 ≤ 4. -/
theorem c8_amended_no_success_above_oom_witness : (3 : Nat) ≤ 4 :=
  c8_amended_no_success_above_oom trialSuccessBelow4 9 4 3 (by decide)
    rfl rfl

/-- C9: on the auto-selection path, for every run — distributed or not —
the final batch size handed to the training pipeline is ≥ 1 and ≤ the
invoking worker's dataset-shard length (asserted positive in `main`).
Peer workers' local safe values are ≥ 1, being produced by the same margin
computation (`applyMargin_pos`), which the hypothesis on `others`
records. -/
theorem c9_final_value_bounds (trial : Nat → TrialOutcome)
    (distributed : Bool) (L : Nat) (others : List Nat) (f : Nat) (w : Bool)
    (hL : 1 ≤ L) (hothers : ∀ v ∈ others, 1 ≤ v)
    (h : mainSamplesPerGpu trial distributed L others = Except.ok (f, w)) :
    1 ≤ f ∧ f ≤ L := by
  have hbounds : ∀ s, 1 ≤ s →
      1 ≤ (clampToShard L s).1 ∧ (clampToShard L s).1 ≤ L := by
    intro s hs
    unfold clampToShard
    by_cases hLs : L < s
    · rw [if_pos hLs]
      exact ⟨hL, le_rfl⟩
    · rw [if_neg hLs]
      exact ⟨hs, by omega⟩
  unfold mainSamplesPerGpu determine_max_batch_size at h
  cases hraw : rawCapacity trial L with
  | error e =>
    rw [hraw] at h
    simp [Except.map] at h
  | ok r =>
    rw [hraw] at h
    simp only [Except.map] at h
    have hr2 : 2 ≤ r := rawCapacity_ge_two trial L r hraw
    have hm1 : 1 ≤ applyMargin r := applyMargin_pos r hr2
    have hs1 : 1 ≤ (if distributed then allReduceMin (applyMargin r) others
        else applyMargin r) := by
      cases distributed
      · simpa using hm1
      · simpa [allReduceMin] using
          foldl_min_ge others (applyMargin r) 1 hm1 hothers
    have hb := hbounds _ hs1
    rw [Except.ok.inj h] at hb
    simpa using hb

/-- Witness for C9: all-success oracle, shard length 5, one peer reporting
3, distributed run — the final value is 3 with no warning, and 1 ≤ 3 ≤ 5. -/
theorem c9_final_value_bounds_witness : 1 ≤ 3 ∧ (3 : Nat) ≤ 5 :=
  c9_final_value_bounds trialAllSuccess true 5 [3] 3 false (by decide)
    (by decide) rfl

end Claims

end TrainPy
